import Mathlib

/-!
Shallow embedding of `src/HtmlChopper.py` (module `HtmlChopper`), a script
that splits one HTML document into per-section and per-subsection files.

The DOM provided by BeautifulSoup is modelled as a tagged tree of text
nodes and element nodes.  The filesystem is modelled as a list of existing
paths; all side effects (directory creation, tree copies, file writes,
`print` calls) are recorded as an explicit event trace.  Python's
per-process object hash (used for the fallback subsection identifier) is
modelled as an oracle parameter.

BeautifulSoup behaviours relied on by the source and reflected here:
  * `find_all(id=pred)` / `find_all(name, class_=...)` walk descendants in
    document (pre-)order and match element nodes only;
  * a `class_` string filter matches when the whitespace-split class
    attribute, re-joined with single spaces, equals the filter string;
  * `find_next_sibling()` with no arguments matches element nodes only, so
    it skips NavigableString siblings and returns the next element sibling;
  * `tag.get('id', None) or fallback` takes the fallback for a missing or
    empty id attribute.
-/

namespace HtmlChopper

/-! ### String utilities

Kernel-computable (structurally recursive) equivalents of the Python
string operations the script uses; Lean's built-in counterparts recurse on
byte positions through well-founded recursion, which the kernel cannot
evaluate. -/

/-- Python's `s.startswith(pre)`. -/
def strStartsWith (s pre : String) : Bool := pre.data.isPrefixOf s.data

/-- Drop the first `n` characters of a string. -/
def strDrop (s : String) (n : Nat) : String := String.mk (s.data.drop n)

/-- Python's `s.strip()`: remove leading and trailing whitespace. -/
def trimStr (s : String) : String :=
  String.mk (((s.data.dropWhile Char.isWhitespace).reverse.dropWhile Char.isWhitespace).reverse)

/-- Split a character list at every character satisfying `p` (the
separators are dropped; empty groups are kept, as in `str.split(sep)`). -/
def splitPredList (p : Char → Bool) : List Char → List (List Char)
  | [] => [[]]
  | c :: rest =>
      match splitPredList p rest with
      | [] => [[]]
      | g :: gs => if p c then [] :: g :: gs else (c :: g) :: gs

/-- The `/`-separated components of a path. -/
def pathParts (s : String) : List String :=
  (splitPredList (fun c => c = '/') s.data).map String.mk

/-- Whether `pat` occurs as a prefix of `s` or of a suffix of `s`. -/
def containsList (s pat : List Char) : Bool :=
  match s with
  | [] => pat.isEmpty
  | _ :: rest => pat.isPrefixOf s || containsList rest pat

/-- Whether `pat` occurs as a substring of `s` (`pat in s`). -/
def containsSub (s pat : String) : Bool := containsList s.data pat.data

/-- Python's `s.replace(pat, rep)` for a non-empty `pat`, replacing every
occurrence; the fuel argument (instantiated with the length of the input)
makes the recursion structural. -/
def replaceFuel (pat rep : List Char) : Nat → List Char → List Char
  | 0, s => s
  | _ + 1, [] => []
  | fuel + 1, c :: rest =>
      if pat.isPrefixOf (c :: rest) then
        rep ++ replaceFuel pat rep fuel ((c :: rest).drop pat.length)
      else c :: replaceFuel pat rep fuel rest

/-- Python's `s.replace(pat, rep)` (all occurrences, `pat` non-empty). -/
def replaceAll (s pat rep : String) : String :=
  String.mk (replaceFuel pat.data rep.data s.data.length s.data)

/-- A DOM node: a `NavigableString` or a `Tag` with name, attributes
(in document order) and children. -/
inductive Node where
  | text (s : String)
  | elem (name : String) (attrs : List (String × String)) (children : List Node)

/-- Attribute lookup on an attribute list (first occurrence wins). -/
def lookupAttr (k : String) : List (String × String) → Option String
  | [] => none
  | (k', v) :: rest => if k' = k then some v else lookupAttr k rest

/-- `tag.get(k)`: `none` on a text node or a missing attribute. -/
def Node.getAttr (n : Node) (k : String) : Option String :=
  match n with
  | .text _ => none
  | .elem _ attrs _ => lookupAttr k attrs

/-- Whether a node is an element (`Tag`) as opposed to a `NavigableString`. -/
def Node.isElem : Node → Bool
  | .text _ => false
  | .elem _ _ _ => true

/-- Render an attribute list as it appears inside an opening tag. -/
def attrsString : List (String × String) → String
  | [] => ""
  | (k, v) :: rest => " " ++ k ++ "=\x22" ++ v ++ "\x22" ++ attrsString rest

mutual
/-- `str(tag)`: serialize a node back to markup. -/
def serializeNode : Node → String
  | .text s => s
  | .elem name attrs children =>
      "<" ++ name ++ attrsString attrs ++ ">" ++ serializeNodes children
        ++ "</" ++ name ++ ">"

/-- Serialize a list of sibling nodes by concatenation. -/
def serializeNodes : List Node → String
  | [] => ""
  | n :: rest => serializeNode n ++ serializeNodes rest
end

mutual
/-- All element descendants of a node, in document (pre-)order, matching a
predicate; the node itself is not considered (as in `tag.find_all`). -/
def findAllIn (p : Node → Bool) : Node → List Node
  | .text _ => []
  | .elem _ _ children => findAllList p children

/-- `find_all` over a forest: each root is considered, then its descendants. -/
def findAllList (p : Node → Bool) : List Node → List Node
  | [] => []
  | n :: rest =>
      (if n.isElem && p n then [n] else []) ++ findAllIn p n ++ findAllList p rest
end

/-- The predicate of `soup.find_all(id=lambda x: x and x.startswith('section-'))`:
an id attribute that is present, truthy (non-empty) and starts with
`section-`. -/
def sectionPred (n : Node) : Bool :=
  match n.getAttr "id" with
  | none => false
  | some v => (!(v == "")) && strStartsWith v "section-"

/-- `soup.find_all(id=lambda x: x and x.startswith('section-'))` on the
whole document (the soup's top-level children). -/
def sectionsOf (doc : List Node) : List Node :=
  findAllList sectionPred doc

/-- bs4 stores `class` as a whitespace-split multi-valued attribute; a
string filter containing a space matches when the re-joined token list
equals the filter. -/
def classTokens (v : String) : List String :=
  ((splitPredList Char.isWhitespace v.data).filter (fun t => !t.isEmpty)).map String.mk

/-- The predicate of `find_all('h2', class_="compendium-hr heading-anchor")`. -/
def isQualH2 (n : Node) : Bool :=
  match n with
  | .text _ => false
  | .elem name attrs _ =>
      name = "h2" &&
        (match lookupAttr "class" attrs with
         | none => false
         | some v => " ".intercalate (classTokens v) = "compendium-hr heading-anchor")

mutual
/-- Each qualifying `h2` descendant of a node, in document order, paired
with its list of following siblings (needed to embed the
`find_next_sibling` walk). -/
def h2WithSibsIn : Node → List (Node × List Node)
  | .text _ => []
  | .elem _ _ children => h2WithSibsList children

/-- Forest version of `h2WithSibsIn`. -/
def h2WithSibsList : List Node → List (Node × List Node)
  | [] => []
  | n :: rest =>
      (if isQualH2 n then [(n, rest)] else [])
        ++ h2WithSibsIn n ++ h2WithSibsList rest
end

/-- `node.find_next_sibling()` with no arguments: the first *element*
sibling among the following siblings (string siblings never match a
filterless search), together with the siblings after it. -/
def findNextSiblingTag : List Node → Option (Node × List Node)
  | [] => none
  | n :: rest =>
      match n with
      | .elem _ _ _ => some (n, rest)
      | .text _ => findNextSiblingTag rest

/-- The `while True` loop of `split_html` (lines 111–120), with the
`find_next_sibling()` call fused in: the walk skips string siblings (a
filterless `find_next_sibling()` matches element nodes only, so the
source's `NavigableString` branch on lines 115–116 never runs), stops at
the end of the siblings or before any element named `h2`, and otherwise
appends `str(next_node)`.  The theorem `gatherLoop_step` below recovers
the loop exactly in the source's shape. -/
def gatherLoop : List Node → List String
  | [] => []
  | .text _ :: rest => gatherLoop rest
  | .elem name attrs children :: rest =>
      if name = "h2" then []
      else serializeNode (.elem name attrs children) :: gatherLoop rest

/-- `content`: the `h2` tag's own serialization followed by the gathered
sibling content (lines 109–120). -/
def captureContent (h2 : Node) (sibs : List Node) : List String :=
  serializeNode h2 :: gatherLoop sibs

/-! ### Paths and the filesystem model -/

/-- `os.path.join` for the two-argument POSIX case used by the script. -/
def joinPath (a b : String) : String := a ++ "/" ++ b

/-- `os.path.basename`: the component after the last slash. -/
def basename (p : String) : String := (pathParts p).getLastD ""

/-- Python's `f"{n:03d}"` for a natural number. -/
def pad3 (n : Nat) : String :=
  let s := toString n
  String.mk (List.replicate (3 - s.length) '0') ++ s

/-- The filesystem: the set of existing paths, as a list. -/
abbrev FS := List String

/-- `os.path.exists`. -/
def pathExists (fs : FS) (p : String) : Bool := fs.contains p

/-- `q` lies strictly under directory `root`. -/
def isUnder (root q : String) : Bool := (root ++ "/").data.isPrefixOf q.data

/-- `shutil.rmtree p`: remove `p` and everything under it. -/
def rmtreeFS (fs : FS) (p : String) : FS :=
  fs.filter fun q => !(q == p || isUnder p q)

/-- `shutil.copytree src dst`: create `dst` and mirror every path under
`src` to the corresponding path under `dst`. -/
def copytreeFS (fs : FS) (src dst : String) : FS :=
  dst :: (fs.filterMap fun q =>
    if isUnder src q then some (dst ++ strDrop q src.length) else none) ++ fs

/-- `os.makedirs(p, exist_ok=True)`. -/
def mkdirsFS (fs : FS) (p : String) : FS := p :: fs

/-- One recorded side effect of a run. -/
inductive Event where
  | mkdirs (p : String)
  | rmtree (p : String)
  | copytree (src dst : String)
  | write (path content : String)
  | print (s : String)
deriving Repr, DecidableEq

/-- The `print`ed lines of a trace, in order. -/
def printsOf (evs : List Event) : List String :=
  evs.filterMap fun e => match e with | .print s => some s | _ => none

/-- The files written in a trace, as `(path, content)` pairs, in order. -/
def writesOf (evs : List Event) : List (String × String) :=
  evs.filterMap fun e => match e with | .write p c => some (p, c) | _ => none

/-- The destinations of the `copytree` events of a trace, in order. -/
def copyDsts (evs : List Event) : List String :=
  evs.filterMap fun e => match e with | .copytree _ d => some d | _ => none

/-- The directories created by `mkdirs` events of a trace, in order. -/
def mkdirDsts (evs : List Event) : List String :=
  evs.filterMap fun e => match e with | .mkdirs p => some p | _ => none

/-- `copy_css_folder(css_dir, target_dir)` (lines 46–53): compute the
target `target_dir/basename(css_dir)`, remove it if it exists, then copy
the tree. -/
def copy_css_folder (fs : FS) (cssDir targetDir : String) : List Event × FS :=
  let target := joinPath targetDir (basename cssDir)
  if pathExists fs target then
    ([.rmtree target, .copytree cssDir target], copytreeFS (rmtreeFS fs target) cssDir target)
  else
    ([.copytree cssDir target], copytreeFS fs cssDir target)

/-! ### The head block -/

/-- One space of indentation per depth level, as in bs4 pretty printing. -/
def indentSp (depth : Nat) : String := String.mk (List.replicate depth ' ')

mutual
/-- Modelled from bs4's `Tag.prettify`: each element's open tag, contents
and close tag on lines of their own, indented one space per level;
whitespace-only strings are dropped and other strings are trimmed. -/
def prettifyLines (depth : Nat) : Node → List String
  | .text s => if trimStr s = "" then [] else [indentSp depth ++ trimStr s]
  | .elem name attrs children =>
      (indentSp depth ++ "<" ++ name ++ attrsString attrs ++ ">")
        :: prettifyList (depth + 1) children
        ++ [indentSp depth ++ "</" ++ name ++ ">"]

/-- `prettifyLines` over a list of children. -/
def prettifyList (depth : Nat) : List Node → List String
  | [] => []
  | n :: rest => prettifyLines depth n ++ prettifyList depth rest
end

/-- `str(head.prettify())` (line 72). -/
def prettify (n : Node) : String := "\n".intercalate (prettifyLines 0 n) ++ "\n"

/-- `soup.find('head')`: the first element named `head`, in document order. -/
def headOf (doc : List Node) : Option Node :=
  (findAllList (fun n => match n with | .elem nm _ _ => nm = "head" | .text _ => false) doc).head?

/-- `str(BeautifulSoup(s, 'html.parser'))` (line 128): re-parsing a
serialized fragment and serializing it again; the round trip of the opaque
parser is modelled as the identity on fragment strings. -/
def reparseRoundTrip (s : String) : String := s

/-! ### The run -/

/-- `'<!DOCTYPE html>'` (line 68). -/
def doctype : String := "<!DOCTYPE html>"

/-- The 27 spaces of source-line indentation inside the triple-quoted
f-string of the headless branch (lines 97–98). -/
def headlessFill : String := String.mk (List.replicate 27 ' ')

/-- Referencing the local `head_content` on line 137 when no `head` was
found raises `NameError` (the variable is only assigned under `if head:`). -/
inductive RunError where
  | nameErrorHeadContent
deriving Repr, DecidableEq

/-- The exact section-file payload: lines 93–94 with a head, lines 97–98
without one (where the f-string's literal line break and indentation are
part of the output). -/
def sectionFileContent (hc : Option String) (sec : Node) : String :=
  match hc with
  | some h => doctype ++ "\n<html>" ++ h ++ "<body>" ++ serializeNode sec ++ "</body></html>"
  | none =>
      doctype ++ "\n<html\n" ++ headlessFill ++ "><head></head><body>"
        ++ serializeNode sec ++ "</body></html>"

/-- The exact subsection-file payload (lines 137–138): note there is no
opening `<html>` tag in this template. -/
def subsectionFileContent (h body : String) : String :=
  doctype ++ "\n" ++ h ++ "<body>" ++ body ++ "</body></html>"

/-- `subsection_id` (lines 106–107): the id attribute when present and
truthy (Python's `or` also rejects an empty string), else the fallback
`f"subsection-{hash(h2_tag)}"`.  The per-process object hash is modelled
as the oracle `hashO`, keyed by the section and subsection ordinals that
identify the `h2` occurrence. -/
def subIdOf (hashO : Nat → Nat → Int) (secNum subNum : Nat) (h2 : Node) : String :=
  match h2.getAttr "id" with
  | some v => if v == "" then "subsection-" ++ toString (hashO secNum subNum) else v
  | none => "subsection-" ++ toString (hashO secNum subNum)

/-- `subsection_file` (lines 124–125). -/
def subFileOf (hashO : Nat → Nat → Int) (secNum subNum : Nat)
    (sectionFolder : String) (h2 : Node) : String :=
  joinPath (joinPath sectionFolder "subsections")
    (pad3 subNum ++ "_" ++ subIdOf hashO secNum subNum h2 ++ ".html")

/-- One iteration of the subsection loop (lines 104–139): fallback
identifier, sibling-content capture, `subsections` directory creation,
CSS-folder copy, file write and progress print.  The write references the
local `head_content`, which is unbound when the document has no head. -/
def processSubsection (hc : Option String) (cssDir sectionFolder : String)
    (secNum : Nat) (hashO : Nat → Nat → Int) (subNum : Nat)
    (h2 : Node) (sibs : List Node) (fs : FS) : Except RunError (List Event × FS) :=
  let subsection_id := subIdOf hashO secNum subNum h2
  let content := captureContent h2 sibs
  let subsectionFolder := joinPath sectionFolder "subsections"
  let fs1 := mkdirsFS fs subsectionFolder
  let subsectionFile := subFileOf hashO secNum subNum sectionFolder h2
  let body := reparseRoundTrip (String.join content)
  let (cpEvs, fs2) := copy_css_folder fs1 cssDir subsectionFolder
  match hc with
  | none => .error .nameErrorHeadContent
  | some h =>
      .ok (Event.mkdirs subsectionFolder :: cpEvs
            ++ [.write subsectionFile (subsectionFileContent h body),
                .print ("Saved subsection " ++ subsection_id ++ " to " ++ subsectionFile)],
           fs2)

/-- The subsection loop over the qualifying `h2` tags of one section, with
`subsection_num` counting from 1. -/
def runSubsections (hc : Option String) (cssDir sectionFolder : String)
    (secNum : Nat) (hashO : Nat → Nat → Int) :
    Nat → List (Node × List Node) → FS → Except RunError (List Event × FS)
  | _, [], fs => .ok ([], fs)
  | subNum, (h2, sibs) :: rest, fs => do
      let (evs1, fs1) ← processSubsection hc cssDir sectionFolder secNum hashO (subNum + 1) h2 sibs fs
      let (evs2, fs2) ← runSubsections hc cssDir sectionFolder secNum hashO (subNum + 1) rest fs1
      .ok (evs1 ++ evs2, fs2)

/-- `section_id = section.get('id')` (line 77); always present on a
matched section boundary. -/
def sectionIdOf (sec : Node) : String := (sec.getAttr "id").getD ""

/-- `section_folder_name` (line 78): every occurrence of `section-` is
removed (Python `str.replace` replaces all occurrences). -/
def sectionFolderNameOf (sec : Node) : String :=
  replaceAll (sectionIdOf sec) "section-" ""

/-- `section_folder` (lines 79–80). -/
def sectionFolderOf (outputDir : String) (secNum : Nat) (sec : Node) : String :=
  joinPath outputDir (pad3 secNum ++ "_" ++ sectionFolderNameOf sec)

/-- `section_file` (lines 89–90). -/
def sectionFileOf (outputDir : String) (secNum : Nat) (sec : Node) : String :=
  joinPath (sectionFolderOf outputDir secNum sec) (sectionFolderNameOf sec ++ ".html")

/-- One iteration of the section loop (lines 75–139): directory creation,
CSS-folder copy, section-file write, progress print, then the subsection
loop. -/
def processSection (hc : Option String) (outputDir cssDir : String)
    (hashO : Nat → Nat → Int) (secNum : Nat) (sec : Node) (fs : FS) :
    Except RunError (List Event × FS) := do
  let sectionFolder := sectionFolderOf outputDir secNum sec
  let fs1 := mkdirsFS fs sectionFolder
  let (cpEvs, fs2) := copy_css_folder fs1 cssDir sectionFolder
  let sectionFile := sectionFileOf outputDir secNum sec
  let secEvs := Event.mkdirs sectionFolder :: cpEvs
      ++ [.write sectionFile (sectionFileContent hc sec),
          .print ("Saved section " ++ sectionIdOf sec ++ " to " ++ sectionFile)]
  let (subEvs, fs3) ← runSubsections hc cssDir sectionFolder secNum hashO 0 (h2WithSibsIn sec) fs2
  .ok (secEvs ++ subEvs, fs3)

/-- The section loop, with `section_num` counting from 1. -/
def runSections (hc : Option String) (outputDir cssDir : String)
    (hashO : Nat → Nat → Int) :
    Nat → List Node → FS → Except RunError (List Event × FS)
  | _, [], fs => .ok ([], fs)
  | secNum, sec :: rest, fs => do
      let (evs1, fs1) ← processSection hc outputDir cssDir hashO (secNum + 1) sec fs
      let (evs2, fs2) ← runSections hc outputDir cssDir hashO (secNum + 1) rest fs1
      .ok (evs1 ++ evs2, fs2)

/-- `split_html(input_file, output_dir, css_dir)` (lines 56–141), with the
parsed document, the initial filesystem and the object-hash oracle as
explicit inputs.  The commented-out calls to `update_css_paths` and
`update_img_paths` (lines 71, 84, 131) are not part of the run. -/
def split_html (doc : List Node) (outputDir cssDir : String) (fs0 : FS)
    (hashO : Nat → Nat → Int) : Except RunError (List Event × FS) := do
  let hc := (headOf doc).map prettify
  let sections := sectionsOf doc
  let (evs, fs1) ← runSections hc outputDir cssDir hashO 0 sections fs0
  .ok (evs ++ [.print "HTML splitting complete!"], fs1)

/-! ### The CLI driver (`__main__`, lines 144–154) -/

/-- The usage message printed on a wrong argument count (line 147). -/
def usageMsg : String :=
  "Usage: python html_splitter.py <input_html_file> <output_directory> <css_folder>"

/-- How the process ends: a `sys.exit`/fall-off-main exit code, or an
uncaught exception. -/
inductive ExitStatus where
  | exited (code : Nat)
  | raised (e : RunError)
deriving Repr, DecidableEq

/-- The `__main__` block: print the Python version, check
`len(sys.argv) != 4` (usage message and exit code 1 on violation), then
run `split_html` on the three operands.  `parseFile` stands for reading
and parsing the input file. -/
def program (pyVersion : String) (argv : List String)
    (parseFile : String → List Node) (fs0 : FS) (hashO : Nat → Nat → Int) :
    List Event × ExitStatus :=
  let ev0 : List Event := [.print pyVersion]
  match argv with
  | [_, inputFile, outputDir, cssDir] =>
      (match split_html (parseFile inputFile) outputDir cssDir fs0 hashO with
       | .ok (evs, _) => (ev0 ++ evs, .exited 0)
       | .error e => (ev0, .raised e))
  | _ => (ev0 ++ [.print usageMsg], .exited 1)

/-! ### The unused path-rewriting helpers (lines 17–43)

`update_css_paths` and `update_img_paths` exist in the module but every
call to them inside `split_html` is commented out (lines 71, 84, 131), so
they are embedded here only to document what they would do. -/

/-- `os.path.dirname`: everything before the last slash (empty when there
is no slash). -/
def dirname (p : String) : String :=
  let parts := pathParts p
  if parts.length ≤ 1 then "" else "/".intercalate (parts.dropLast)

/-- `os.path.relpath(path, start)` for the already-relative POSIX paths
the script works with: drop the common prefix of components and climb out
of the remainder of `start` with `..` components (`start = ""` means the
current directory). -/
def relpath (path start : String) : String :=
  let pParts := (pathParts path).filter (fun c => !(c == "") && c ≠ ".")
  let sParts := (pathParts start).filter (fun c => !(c == "") && c ≠ ".")
  let rec strip : List String → List String → List String × List String
    | a :: as, b :: bs => if a = b then strip as bs else (a :: as, b :: bs)
    | as, bs => (as, bs)
  let (pRest, sRest) := strip pParts sParts
  let segs := sRest.map (fun _ => "..") ++ pRest
  if segs.isEmpty then "." else "/".intercalate segs

/-- `update_css_paths(head, css)` (lines 17–26): for each stylesheet link
in the head, rewrite `href` to
`relpath(join(css, basename(href)), dirname(href))` when that file exists;
a missing file leaves the link unchanged and prints nothing.  Returns the
rewritten head. -/
def update_css_paths (head : Node) (css : String) (fs : FS) : Node :=
  match head with
  | .text s => .text s
  | .elem name attrs children =>
      .elem name attrs (children.map fun child =>
        match child with
        | .elem "link" cattrs cch =>
            if lookupAttr "rel" cattrs = some "stylesheet" then
              let originalHref := (lookupAttr "href" cattrs).getD ""
              let cssFilePath := joinPath css (basename originalHref)
              if pathExists fs cssFilePath then
                .elem "link"
                  (cattrs.map fun kv =>
                    if kv.1 = "href" then ("href", relpath cssFilePath (dirname originalHref)) else kv)
                  cch
              else child
            else child
        | _ => child)

/-- `update_img_paths(soup, css_dir, output_dir)` (lines 29–43): rewrite
each `img` `src` whose basename exists under the CSS directory, and print
a diagnostic for each one that does not.  Only the diagnostics are needed
here: the function is never called by `split_html`. -/
def update_img_paths_diagnostics (soup : Node) (cssDir : String) (fs : FS) : List String :=
  (findAllList (fun n => match n with | .elem nm _ _ => nm = "img" | .text _ => false) [soup]).filterMap
    fun img =>
      let imgSrc := (img.getAttr "src").getD ""
      if imgSrc.isEmpty then none
      else
        let imgFilePath := joinPath cssDir (basename imgSrc)
        if pathExists fs imgFilePath then none
        else some ("Image file does not exist: " ++ imgFilePath)

/-! ### Observations of a run and their expected values -/

/-- Resolve a relative reference against the directory of an emitted
file. -/
def resolveRel (dir rel : String) : String := joinPath dir rel

/-- `List.enum` starting at `k`: pairs each element with its 1-based
ordinal when called with `k = 1`. -/
def enumFrom (k : Nat) : List α → List (Nat × α)
  | [] => []
  | x :: xs => (k, x) :: enumFrom (k + 1) xs

/-- The observable summary of an event trace: the writes, the printed
lines, the `copytree` destinations and the created directories. -/
abbrev Obs := List (String × String) × List String × List String × List String

/-- Project a trace to its observable summary. -/
def obsOf (evs : List Event) : Obs :=
  (writesOf evs, printsOf evs, copyDsts evs, mkdirDsts evs)

/-- The expected observable summary of the subsection loop of one section,
head present, `subsection_num` counter starting at `k`. -/
def expSubObs (h : String) (cssDir sectionFolder : String) (secNum : Nat)
    (hashO : Nat → Nat → Int) (k : Nat) (pairs : List (Node × List Node)) : Obs :=
  ((enumFrom (k + 1) pairs).map fun q =>
      (subFileOf hashO secNum q.1 sectionFolder q.2.1,
       subsectionFileContent h (String.join (captureContent q.2.1 q.2.2))),
   (enumFrom (k + 1) pairs).map fun q =>
      "Saved subsection " ++ subIdOf hashO secNum q.1 q.2.1 ++ " to "
        ++ subFileOf hashO secNum q.1 sectionFolder q.2.1,
   pairs.map fun _ => joinPath (joinPath sectionFolder "subsections") (basename cssDir),
   pairs.map fun _ => joinPath sectionFolder "subsections")

/-- The expected observable summary of the section loop, head present,
`section_num` counter starting at `k`. -/
def expSecObs (h : String) (outputDir cssDir : String)
    (hashO : Nat → Nat → Int) : Nat → List Node → Obs
  | _, [] => ([], [], [], [])
  | k, sec :: rest =>
      let i := k + 1
      let sf := sectionFolderOf outputDir i sec
      let file := sectionFileOf outputDir i sec
      let subs := expSubObs h cssDir sf i hashO 0 (h2WithSibsIn sec)
      let restObs := expSecObs h outputDir cssDir hashO i rest
      ((file, sectionFileContent (some h) sec) :: subs.1 ++ restObs.1,
       ("Saved section " ++ sectionIdOf sec ++ " to " ++ file) :: subs.2.1 ++ restObs.2.1,
       joinPath sf (basename cssDir) :: subs.2.2.1 ++ restObs.2.2.1,
       sf :: subs.2.2.2 ++ restObs.2.2.2)

mutual
/-- The descendants of one node in document (pre-)order (reference
traversal used to characterize `find_all`). -/
def allNodesIn : Node → List Node
  | .text _ => []
  | .elem _ _ children => allNodesList children

/-- All nodes of a forest in document (pre-)order: each root, then its
descendants. -/
def allNodesList : List Node → List Node
  | [] => []
  | n :: rest => n :: allNodesIn n ++ allNodesList rest
end

/-- The children of a node (empty for a string). -/
def Node.children : Node → List Node
  | .text _ => []
  | .elem _ _ c => c

/-- Whether a node carries a present, non-empty `id` attribute, so that
the fallback subsection identifier is never consulted for it. -/
def hasRealId (n : Node) : Bool :=
  match n.getAttr "id" with
  | some v => !(v == "")
  | none => false

/-- Total extraction of a run's writes (empty on an aborted run). -/
def writesOfRun (x : Except RunError (List Event × FS)) : List (String × String) :=
  match x with
  | .ok r => writesOf r.1
  | .error _ => []

/-! ### Concrete documents used as inputs below -/

/-- A qualifying subsection heading. -/
def c1H2 : Node :=
  .elem "h2" [("id", "intro"), ("class", "compendium-hr heading-anchor")] [.text "Intro"]

/-- An `h2` without the boundary class. -/
def c1Plain : Node := .elem "h2" [] [.text "Plain"]

/-- An ordinary element after the plain `h2`. -/
def c1P : Node := .elem "p" [] [.text "after"]

/-- A qualifying subsection heading with an id. -/
def c2H2 : Node :=
  .elem "h2" [("id", "a"), ("class", "compendium-hr heading-anchor")] []

/-- An ordinary element sibling. -/
def c2P : Node := .elem "p" [] [.text "x"]

/-- Sibling list containing a non-whitespace text node between capture
start and an ordinary element. -/
def c2Sibs : List Node := [.text "  keep me  ", c2P]

/-- A head block for the complete-document examples. -/
def exHead : Node := .elem "head" [] [.elem "title" [] [.text "T"]]

/-- A section with one qualifying subsection heading (with id). -/
def c3Sec : Node :=
  .elem "div" [("id", "section-intro")]
    [.elem "h2" [("id", "h1"), ("class", "compendium-hr heading-anchor")] [.text "A"],
     .text "text1",
     .elem "p" [] [.text "tail"]]

/-- A complete document with a head and one section. -/
def c3Doc : List Node :=
  [.elem "html" [] [exHead, .elem "body" [] [c3Sec]]]

/-- A head block with a stylesheet link whose basename exists under the
asset root used below. -/
def c4Head : Node :=
  .elem "head" []
    [.elem "link" [("rel", "stylesheet"), ("href", "assets/deep/main.css")] []]

/-- A document whose section carries an image reference whose basename is
absent from the asset root. -/
def c4Doc : List Node :=
  [.elem "html" []
    [c4Head,
     .elem "body" []
       [.elem "div" [("id", "section-a")]
         [.elem "img" [("src", "nope/gone.png")] []]]]]

/-- The initial filesystem for the asset-rewriting example: the asset root
`mycss` holds `main.css` but no `gone.png`. -/
def c4Fs : FS := ["mycss", "mycss/main.css"]

/-- A headless document whose single section contains a qualifying
subsection heading. -/
def c5Doc : List Node :=
  [.elem "body" []
    [.elem "div" [("id", "section-a")]
      [.elem "h2" [("id", "h1"), ("class", "compendium-hr heading-anchor")] [.text "A"]]]]

/-- A document whose qualifying subsection heading has no id attribute,
forcing the hash-derived fallback identifier. -/
def c6Doc : List Node :=
  [.elem "html" []
    [exHead,
     .elem "body" []
       [.elem "div" [("id", "section-a")]
         [.elem "h2" [("class", "compendium-hr heading-anchor")] [.text "A"]]]]]

/-- An element whose id is exactly `section-` (empty name part). -/
def c7Div1 : Node := .elem "div" [("id", "section-")] []

/-- An element whose id continues the prefix with characters outside
`[A-Za-z0-9-]`. -/
def c7Div2 : Node := .elem "div" [("id", "section-a!b")] []

/-- A document containing only the two irregular candidates above. -/
def c7Doc : List Node := [.elem "body" [] [c7Div1, c7Div2]]

/-- A document with a head and content but no `section-*` identifiers. -/
def c9Doc : List Node :=
  [.elem "html" [] [exHead, .elem "body" [] [.elem "div" [("id", "intro")] [.text "x"]]]]

/-- A document with a head and one section holding one qualifying
subsection heading (all ids present). -/
def c10Doc : List Node :=
  [.elem "html" []
    [exHead,
     .elem "body" []
       [.elem "div" [("id", "section-b")]
         [.elem "h2" [("id", "s1"), ("class", "compendium-hr heading-anchor")] [.text "B"]]]]]

/-! ## Theorems -/

/-- The fused `gatherLoop` unfolds exactly as the source's `while True`
loop (lines 111–120): one `find_next_sibling()` step, the (dead)
`NavigableString` branch appending the stripped string, the break before
any `h2` element, and the append of the serialized element otherwise. -/
theorem gatherLoop_step (sibs : List Node) :
    gatherLoop sibs =
      match findNextSiblingTag sibs with
      | none => []
      | some (Node.text s, rest) => trimStr s :: gatherLoop rest
      | some (Node.elem name attrs children, rest) =>
          if name = "h2" then []
          else serializeNode (Node.elem name attrs children) :: gatherLoop rest := by
  induction sibs with
  | nil => rfl
  | cons n rest ih =>
      cases n with
      | text s => simpa [gatherLoop, findNextSiblingTag] using ih
      | elem name attrs children => simp [gatherLoop, findNextSiblingTag]

/-- C1: the sibling-forward capture does NOT stop only at qualifying `h2`
boundaries: a following sibling `<h2>` without the class
`compendium-hr heading-anchor` also terminates the capture and is excluded
from the fragment (the loop breaks on any element named `h2`), so the
fragment for `c1H2` followed by `[c1Plain, c1P]` is the heading alone —
not the heading, the plain `h2` and the trailing paragraph that the claim
(and the function's own docstring) require. -/
theorem C1_capture_stops_at_any_h2 :
    captureContent c1H2 [c1Plain, c1P] = [serializeNode c1H2] ∧
    captureContent c1H2 [c1Plain, c1P]
      ≠ [serializeNode c1H2, serializeNode c1Plain, serializeNode c1P] := by
  constructor
  · rfl
  · decide

/-- C2 (counterexample): a text sibling is not appended to the fragment
verbatim — it is not appended at all.  With the siblings
`[" keep me ", <p>x</p>]` the captured fragment is the heading and the
paragraph only; the text node is absent. -/
theorem C2_counterexample_text_sibling_dropped :
    captureContent c2H2 c2Sibs = [serializeNode c2H2, serializeNode c2P] ∧
    "  keep me  " ∉ captureContent c2H2 c2Sibs ∧
    containsSub (String.join (captureContent c2H2 c2Sibs)) "keep me" = false := by
  refine ⟨rfl, by decide, by decide⟩

/-- C2 (amended): during subsection content capture no text (string)
sibling is ever appended: the filterless `find_next_sibling()` walk yields
element siblings only, so the gathered content is unchanged when all text
siblings are removed beforehand. -/
theorem C2_amended_text_siblings_never_captured (sibs : List Node) :
    gatherLoop sibs = gatherLoop (sibs.filter Node.isElem) := by
  induction sibs with
  | nil => rfl
  | cons n rest ih =>
      cases n with
      | text s => simpa [gatherLoop, Node.isElem] using ih
      | elem name attrs children =>
          by_cases h : name = "h2" <;> simp [gatherLoop, Node.isElem, h, ih]

mutual
/-- `find_all` within a node agrees with filtering its document-order
descendant list. -/
theorem findAllIn_eq (p : Node → Bool) (n : Node) :
    findAllIn p n = (allNodesIn n).filter (fun m => m.isElem && p m) := by
  cases n with
  | text s => rfl
  | elem name attrs children =>
      simpa [findAllIn, allNodesIn] using findAllList_eq p children

/-- `find_all` over a forest agrees with filtering the document-order
node list. -/
theorem findAllList_eq (p : Node → Bool) (ns : List Node) :
    findAllList p ns = (allNodesList ns).filter (fun m => m.isElem && p m) := by
  cases ns with
  | nil => rfl
  | cons n rest =>
      have hn := findAllIn_eq p n
      have hrest := findAllList_eq p rest
      cases hb : (n.isElem && p n) <;>
        simp [findAllList, allNodesList, List.filter_append, hb, hn, hrest]
end

/-- C7 (counterexample): the segmenter's boundary scan is a bare
`startswith('section-')` test: an element whose id is exactly `section-`
and one whose id continues with `!` (outside `[A-Za-z0-9-]`) are both
selected, although the claimed pattern `^section-[A-Za-z0-9-]+$` matches
neither. -/
theorem C7_counterexample_bare_prefix_selected :
    (sectionsOf c7Doc).map (fun n => n.getAttr "id")
      = [some "section-", some "section-a!b"] := by
  rfl

/-- C7 (amended): the boundaries are exactly the elements, in document
order, whose id attribute is present, non-empty and merely starts with
`section-`; the characters after the prefix are unrestricted and may be
absent altogether. -/
theorem C7_amended_boundary_characterization (doc : List Node) :
    sectionsOf doc = (allNodesList doc).filter
      (fun n => n.isElem &&
        (n.getAttr "id").elim false (fun v => !(v == "") && strStartsWith v "section-")) := by
  have h := findAllList_eq sectionPred doc
  have hpred : ∀ n : Node, sectionPred n
      = (n.getAttr "id").elim false (fun v => !(v == "") && strStartsWith v "section-") := by
    intro n
    unfold sectionPred
    cases n.getAttr "id" <;> rfl
  calc sectionsOf doc
      = (allNodesList doc).filter (fun n => n.isElem && sectionPred n) := h
    _ = (allNodesList doc).filter
          (fun n => n.isElem &&
            (n.getAttr "id").elim false (fun v => !(v == "") && strStartsWith v "section-")) := by
        apply List.filter_congr
        intro n _
        rw [hpred]

/-! ### Trace-extractor lemmas -/

theorem writesOf_append (a b : List Event) :
    writesOf (a ++ b) = writesOf a ++ writesOf b := List.filterMap_append a b _

theorem printsOf_append (a b : List Event) :
    printsOf (a ++ b) = printsOf a ++ printsOf b := List.filterMap_append a b _

theorem copyDsts_append (a b : List Event) :
    copyDsts (a ++ b) = copyDsts a ++ copyDsts b := List.filterMap_append a b _

theorem mkdirDsts_append (a b : List Event) :
    mkdirDsts (a ++ b) = mkdirDsts a ++ mkdirDsts b := List.filterMap_append a b _

theorem writesOf_mkdirs (p : String) (l : List Event) :
    writesOf (Event.mkdirs p :: l) = writesOf l := rfl

theorem writesOf_rmtree (p : String) (l : List Event) :
    writesOf (Event.rmtree p :: l) = writesOf l := rfl

theorem writesOf_copytree (s d : String) (l : List Event) :
    writesOf (Event.copytree s d :: l) = writesOf l := rfl

theorem writesOf_write (p c : String) (l : List Event) :
    writesOf (Event.write p c :: l) = (p, c) :: writesOf l := rfl

theorem writesOf_print (s : String) (l : List Event) :
    writesOf (Event.print s :: l) = writesOf l := rfl

theorem printsOf_mkdirs (p : String) (l : List Event) :
    printsOf (Event.mkdirs p :: l) = printsOf l := rfl

theorem printsOf_rmtree (p : String) (l : List Event) :
    printsOf (Event.rmtree p :: l) = printsOf l := rfl

theorem printsOf_copytree (s d : String) (l : List Event) :
    printsOf (Event.copytree s d :: l) = printsOf l := rfl

theorem printsOf_write (p c : String) (l : List Event) :
    printsOf (Event.write p c :: l) = printsOf l := rfl

theorem printsOf_print (s : String) (l : List Event) :
    printsOf (Event.print s :: l) = s :: printsOf l := rfl

theorem copyDsts_mkdirs (p : String) (l : List Event) :
    copyDsts (Event.mkdirs p :: l) = copyDsts l := rfl

theorem copyDsts_rmtree (p : String) (l : List Event) :
    copyDsts (Event.rmtree p :: l) = copyDsts l := rfl

theorem copyDsts_copytree (s d : String) (l : List Event) :
    copyDsts (Event.copytree s d :: l) = d :: copyDsts l := rfl

theorem copyDsts_write (p c : String) (l : List Event) :
    copyDsts (Event.write p c :: l) = copyDsts l := rfl

theorem copyDsts_print (s : String) (l : List Event) :
    copyDsts (Event.print s :: l) = copyDsts l := rfl

theorem mkdirDsts_mkdirs (p : String) (l : List Event) :
    mkdirDsts (Event.mkdirs p :: l) = p :: mkdirDsts l := rfl

theorem mkdirDsts_rmtree (p : String) (l : List Event) :
    mkdirDsts (Event.rmtree p :: l) = mkdirDsts l := rfl

theorem mkdirDsts_copytree (s d : String) (l : List Event) :
    mkdirDsts (Event.copytree s d :: l) = mkdirDsts l := rfl

theorem mkdirDsts_write (p c : String) (l : List Event) :
    mkdirDsts (Event.write p c :: l) = mkdirDsts l := rfl

theorem mkdirDsts_print (s : String) (l : List Event) :
    mkdirDsts (Event.print s :: l) = mkdirDsts l := rfl

theorem writesOf_copy (fs : FS) (c t : String) :
    writesOf (copy_css_folder fs c t).1 = [] := by
  by_cases hp : pathExists fs (joinPath t (basename c)) <;>
    simp [copy_css_folder, hp, writesOf]

theorem printsOf_copy (fs : FS) (c t : String) :
    printsOf (copy_css_folder fs c t).1 = [] := by
  by_cases hp : pathExists fs (joinPath t (basename c)) <;>
    simp [copy_css_folder, hp, printsOf]

theorem copyDsts_copy (fs : FS) (c t : String) :
    copyDsts (copy_css_folder fs c t).1 = [joinPath t (basename c)] := by
  by_cases hp : pathExists fs (joinPath t (basename c)) <;>
    simp [copy_css_folder, hp, copyDsts]

theorem mkdirDsts_copy (fs : FS) (c t : String) :
    mkdirDsts (copy_css_folder fs c t).1 = [] := by
  by_cases hp : pathExists fs (joinPath t (basename c)) <;>
    simp [copy_css_folder, hp, mkdirDsts]

/-! ### The observable summary of a head-present run -/

theorem processSubsection_ok (h : String) (css sf : String) (secNum : Nat)
    (hashO : Nat → Nat → Int) (subNum : Nat) (h2 : Node) (sibs : List Node) (fs : FS) :
    processSubsection (some h) css sf secNum hashO subNum h2 sibs fs
      = .ok (Event.mkdirs (joinPath sf "subsections")
               :: (copy_css_folder (mkdirsFS fs (joinPath sf "subsections")) css
                    (joinPath sf "subsections")).1
               ++ [.write (subFileOf hashO secNum subNum sf h2)
                     (subsectionFileContent h
                       (reparseRoundTrip (String.join (captureContent h2 sibs)))),
                   .print ("Saved subsection " ++ subIdOf hashO secNum subNum h2 ++ " to "
                             ++ subFileOf hashO secNum subNum sf h2)],
             (copy_css_folder (mkdirsFS fs (joinPath sf "subsections")) css
               (joinPath sf "subsections")).2) := rfl

theorem expSubObs_cons (h : String) (css sf : String) (secNum : Nat)
    (hashO : Nat → Nat → Int) (k : Nat) (h2 : Node) (sibs : List Node)
    (rest : List (Node × List Node)) :
    expSubObs h css sf secNum hashO k ((h2, sibs) :: rest)
      = ((subFileOf hashO secNum (k + 1) sf h2,
            subsectionFileContent h (String.join (captureContent h2 sibs)))
           :: (expSubObs h css sf secNum hashO (k + 1) rest).1,
         ("Saved subsection " ++ subIdOf hashO secNum (k + 1) h2 ++ " to "
             ++ subFileOf hashO secNum (k + 1) sf h2)
           :: (expSubObs h css sf secNum hashO (k + 1) rest).2.1,
         joinPath (joinPath sf "subsections") (basename css)
           :: (expSubObs h css sf secNum hashO (k + 1) rest).2.2.1,
         joinPath sf "subsections"
           :: (expSubObs h css sf secNum hashO (k + 1) rest).2.2.2) := by
  simp [expSubObs, enumFrom]

theorem runSubsections_obs (h : String) (css sf : String) (secNum : Nat)
    (hashO : Nat → Nat → Int) (pairs : List (Node × List Node)) :
    ∀ (k : Nat) (fs : FS),
    (runSubsections (some h) css sf secNum hashO k pairs fs).map (fun r => obsOf r.1)
      = .ok (expSubObs h css sf secNum hashO k pairs) := by
  induction pairs with
  | nil => intro k fs; rfl
  | cons q rest ih =>
      intro k fs
      obtain ⟨h2, sibs⟩ := q
      have hstep : runSubsections (some h) css sf secNum hashO k ((h2, sibs) :: rest) fs
          = (runSubsections (some h) css sf secNum hashO (k + 1) rest
               ((copy_css_folder (mkdirsFS fs (joinPath sf "subsections")) css
                  (joinPath sf "subsections")).2)).bind
              (fun r2 => .ok ((Event.mkdirs (joinPath sf "subsections")
                   :: (copy_css_folder (mkdirsFS fs (joinPath sf "subsections")) css
                        (joinPath sf "subsections")).1
                   ++ [.write (subFileOf hashO secNum (k + 1) sf h2)
                         (subsectionFileContent h
                           (reparseRoundTrip (String.join (captureContent h2 sibs)))),
                       .print ("Saved subsection " ++ subIdOf hashO secNum (k + 1) h2 ++ " to "
                                 ++ subFileOf hashO secNum (k + 1) sf h2)]) ++ r2.1, r2.2)) := rfl
      rw [hstep]
      have ihh := ih (k + 1)
        ((copy_css_folder (mkdirsFS fs (joinPath sf "subsections")) css
          (joinPath sf "subsections")).2)
      cases hrec : runSubsections (some h) css sf secNum hashO (k + 1) rest
          ((copy_css_folder (mkdirsFS fs (joinPath sf "subsections")) css
            (joinPath sf "subsections")).2) with
      | error e => rw [hrec] at ihh; simp [Except.map] at ihh
      | ok r2 =>
          rw [hrec] at ihh
          replace ihh : obsOf r2.1 = expSubObs h css sf secNum hashO (k + 1) rest := by
            simpa [Except.map] using ihh
          have e1 : writesOf r2.1 = (expSubObs h css sf secNum hashO (k + 1) rest).1 :=
            congrArg (fun t => t.1) ihh
          have e2 : printsOf r2.1 = (expSubObs h css sf secNum hashO (k + 1) rest).2.1 :=
            congrArg (fun t => t.2.1) ihh
          have e3 : copyDsts r2.1 = (expSubObs h css sf secNum hashO (k + 1) rest).2.2.1 :=
            congrArg (fun t => t.2.2.1) ihh
          have e4 : mkdirDsts r2.1 = (expSubObs h css sf secNum hashO (k + 1) rest).2.2.2 :=
            congrArg (fun t => t.2.2.2) ihh
          rw [expSubObs_cons]
          simp only [Except.bind, Except.map]
          refine congrArg Except.ok ?_
          simp [obsOf, writesOf_append, printsOf_append, copyDsts_append, mkdirDsts_append,
            writesOf_copy, printsOf_copy, copyDsts_copy, mkdirDsts_copy,
            writesOf_mkdirs, writesOf_rmtree, writesOf_copytree, writesOf_write, writesOf_print,
            printsOf_mkdirs, printsOf_rmtree, printsOf_copytree, printsOf_write, printsOf_print,
            copyDsts_mkdirs, copyDsts_rmtree, copyDsts_copytree, copyDsts_write, copyDsts_print,
            mkdirDsts_mkdirs, mkdirDsts_rmtree, mkdirDsts_copytree, mkdirDsts_write,
            mkdirDsts_print, reparseRoundTrip, e1, e2, e3, e4]

theorem writesOf_nil : writesOf [] = [] := rfl

theorem printsOf_nil : printsOf [] = [] := rfl

theorem copyDsts_nil : copyDsts [] = [] := rfl

theorem mkdirDsts_nil : mkdirDsts [] = [] := rfl

theorem processSection_step (h : String) (o css : String) (hashO : Nat → Nat → Int)
    (secNum : Nat) (sec : Node) (fs : FS) :
    processSection (some h) o css hashO secNum sec fs
      = (runSubsections (some h) css (sectionFolderOf o secNum sec) secNum hashO 0
           (h2WithSibsIn sec)
           (copy_css_folder (mkdirsFS fs (sectionFolderOf o secNum sec)) css
             (sectionFolderOf o secNum sec)).2).bind
          (fun r => .ok ((Event.mkdirs (sectionFolderOf o secNum sec)
               :: (copy_css_folder (mkdirsFS fs (sectionFolderOf o secNum sec)) css
                    (sectionFolderOf o secNum sec)).1
               ++ [.write (sectionFileOf o secNum sec) (sectionFileContent (some h) sec),
                   .print ("Saved section " ++ sectionIdOf sec ++ " to "
                             ++ sectionFileOf o secNum sec)]) ++ r.1, r.2)) := rfl

theorem runSections_obs (h : String) (o css : String) (hashO : Nat → Nat → Int)
    (secs : List Node) :
    ∀ (k : Nat) (fs : FS),
    (runSections (some h) o css hashO k secs fs).map (fun r => obsOf r.1)
      = .ok (expSecObs h o css hashO k secs) := by
  induction secs with
  | nil => intro k fs; rfl
  | cons sec rest ih =>
      intro k fs
      have hstep : runSections (some h) o css hashO k (sec :: rest) fs
          = (processSection (some h) o css hashO (k + 1) sec fs).bind
              (fun r1 => (runSections (some h) o css hashO (k + 1) rest r1.2).bind
                (fun r2 => .ok (r1.1 ++ r2.1, r2.2))) := rfl
      rw [hstep, processSection_step]
      have hsubs := runSubsections_obs h css (sectionFolderOf o (k + 1) sec) (k + 1) hashO
        (h2WithSibsIn sec) 0
        ((copy_css_folder (mkdirsFS fs (sectionFolderOf o (k + 1) sec)) css
          (sectionFolderOf o (k + 1) sec)).2)
      cases hrecs : runSubsections (some h) css (sectionFolderOf o (k + 1) sec) (k + 1) hashO 0
          (h2WithSibsIn sec)
          ((copy_css_folder (mkdirsFS fs (sectionFolderOf o (k + 1) sec)) css
            (sectionFolderOf o (k + 1) sec)).2) with
      | error e => rw [hrecs] at hsubs; simp [Except.map] at hsubs
      | ok rs =>
          rw [hrecs] at hsubs
          replace hsubs : obsOf rs.1
              = expSubObs h css (sectionFolderOf o (k + 1) sec) (k + 1) hashO 0
                  (h2WithSibsIn sec) := by
            simpa [Except.map] using hsubs
          have ihh := ih (k + 1) rs.2
          simp only [Except.bind]
          cases hrec : runSections (some h) o css hashO (k + 1) rest rs.2 with
          | error e => rw [hrec] at ihh; simp [Except.map] at ihh
          | ok r2 =>
              rw [hrec] at ihh
              replace ihh : obsOf r2.1 = expSecObs h o css hashO (k + 1) rest := by
                simpa [Except.map] using ihh
              have s1 := congrArg (fun t => t.1) hsubs
              have s2 := congrArg (fun t => t.2.1) hsubs
              have s3 := congrArg (fun t => t.2.2.1) hsubs
              have s4 := congrArg (fun t => t.2.2.2) hsubs
              have e1 := congrArg (fun t => t.1) ihh
              have e2 := congrArg (fun t => t.2.1) ihh
              have e3 := congrArg (fun t => t.2.2.1) ihh
              have e4 := congrArg (fun t => t.2.2.2) ihh
              simp only [obsOf] at s1 s2 s3 s4 e1 e2 e3 e4
              simp only [Except.bind, Except.map]
              refine congrArg Except.ok ?_
              show (obsOf _) = expSecObs h o css hashO k (sec :: rest)
              rw [expSecObs]
              simp [obsOf, writesOf_append, printsOf_append, copyDsts_append, mkdirDsts_append,
                writesOf_copy, printsOf_copy, copyDsts_copy, mkdirDsts_copy,
                writesOf_mkdirs, writesOf_rmtree, writesOf_copytree, writesOf_write,
                writesOf_print, printsOf_mkdirs, printsOf_rmtree, printsOf_copytree,
                printsOf_write, printsOf_print, copyDsts_mkdirs, copyDsts_rmtree,
                copyDsts_copytree, copyDsts_write, copyDsts_print, mkdirDsts_mkdirs,
                mkdirDsts_rmtree, mkdirDsts_copytree, mkdirDsts_write, mkdirDsts_print,
                writesOf_nil, printsOf_nil, copyDsts_nil, mkdirDsts_nil,
                s1, s2, s3, s4, e1, e2, e3, e4]

theorem split_html_obs (doc : List Node) (o css : String) (fs0 : FS)
    (hashO : Nat → Nat → Int) (hd : Node) (hh : headOf doc = some hd) :
    (split_html doc o css fs0 hashO).map (fun r => obsOf r.1)
      = .ok ((expSecObs (prettify hd) o css hashO 0 (sectionsOf doc)).1,
             (expSecObs (prettify hd) o css hashO 0 (sectionsOf doc)).2.1
               ++ ["HTML splitting complete!"],
             (expSecObs (prettify hd) o css hashO 0 (sectionsOf doc)).2.2.1,
             (expSecObs (prettify hd) o css hashO 0 (sectionsOf doc)).2.2.2) := by
  have hstep : split_html doc o css fs0 hashO
      = (runSections ((headOf doc).map prettify) o css hashO 0 (sectionsOf doc) fs0).bind
          (fun r => .ok (r.1 ++ [.print "HTML splitting complete!"], r.2)) := rfl
  rw [hstep, hh]
  simp only [Option.map_some']
  have hrun := runSections_obs (prettify hd) o css hashO (sectionsOf doc) 0 fs0
  cases hrec : runSections (some (prettify hd)) o css hashO 0 (sectionsOf doc) fs0 with
  | error e => rw [hrec] at hrun; simp [Except.map] at hrun
  | ok r =>
      rw [hrec] at hrun
      replace hrun : obsOf r.1 = expSecObs (prettify hd) o css hashO 0 (sectionsOf doc) := by
        simpa [Except.map] using hrun
      have e1 := congrArg (fun t => t.1) hrun
      have e2 := congrArg (fun t => t.2.1) hrun
      have e3 := congrArg (fun t => t.2.2.1) hrun
      have e4 := congrArg (fun t => t.2.2.2) hrun
      simp only [obsOf] at e1 e2 e3 e4
      simp only [Except.bind, Except.map]
      refine congrArg Except.ok ?_
      simp [obsOf, writesOf_append, printsOf_append, copyDsts_append, mkdirDsts_append,
        writesOf_print, printsOf_print, copyDsts_print, mkdirDsts_print,
        writesOf_nil, printsOf_nil, copyDsts_nil, mkdirDsts_nil, e1, e2, e3, e4]

/-! ### Helper lemmas about expected observations -/

theorem strStartsWith_append (a b pre : String) (h : strStartsWith a pre = true) :
    strStartsWith (a ++ b) pre = true := by
  unfold strStartsWith at h ⊢
  rw [String.data_append]
  exact List.isPrefixOf_iff_prefix.mpr
    (( List.isPrefixOf_iff_prefix.mp h).trans (a.data.prefix_append b.data))

theorem expSubObs_prints_saved (h css sf : String) (n : Nat) (hashO : Nat → Nat → Int)
    (pairs : List (Node × List Node)) :
    ∀ k, ∀ s ∈ (expSubObs h css sf n hashO k pairs).2.1, strStartsWith s "Saved " = true := by
  induction pairs with
  | nil => intro k s hs; simp [expSubObs, enumFrom] at hs
  | cons q rest ih =>
      intro k s hs
      obtain ⟨h2, sibs⟩ := q
      simp only [expSubObs_cons] at hs
      rcases List.mem_cons.mp hs with hEq | hMem
      · subst hEq
        exact strStartsWith_append _ _ _
          (strStartsWith_append _ _ _ (strStartsWith_append _ _ _ (by decide)))
      · exact ih (k + 1) s hMem

theorem expSecObs_cons (h o css : String) (hashO : Nat → Nat → Int) (k : Nat)
    (sec : Node) (rest : List Node) :
    expSecObs h o css hashO k (sec :: rest)
      = ((sectionFileOf o (k + 1) sec, sectionFileContent (some h) sec)
           :: (expSubObs h css (sectionFolderOf o (k + 1) sec) (k + 1) hashO 0
                (h2WithSibsIn sec)).1
           ++ (expSecObs h o css hashO (k + 1) rest).1,
         ("Saved section " ++ sectionIdOf sec ++ " to " ++ sectionFileOf o (k + 1) sec)
           :: (expSubObs h css (sectionFolderOf o (k + 1) sec) (k + 1) hashO 0
                (h2WithSibsIn sec)).2.1
           ++ (expSecObs h o css hashO (k + 1) rest).2.1,
         joinPath (sectionFolderOf o (k + 1) sec) (basename css)
           :: (expSubObs h css (sectionFolderOf o (k + 1) sec) (k + 1) hashO 0
                (h2WithSibsIn sec)).2.2.1
           ++ (expSecObs h o css hashO (k + 1) rest).2.2.1,
         sectionFolderOf o (k + 1) sec
           :: (expSubObs h css (sectionFolderOf o (k + 1) sec) (k + 1) hashO 0
                (h2WithSibsIn sec)).2.2.2
           ++ (expSecObs h o css hashO (k + 1) rest).2.2.2) := rfl

theorem expSecObs_prints_saved (h o css : String) (hashO : Nat → Nat → Int)
    (secs : List Node) :
    ∀ k, ∀ s ∈ (expSecObs h o css hashO k secs).2.1, strStartsWith s "Saved " = true := by
  induction secs with
  | nil => intro k s hs; simp [expSecObs] at hs
  | cons sec rest ih =>
      intro k s hs
      rw [expSecObs_cons] at hs
      rcases List.mem_cons.mp hs with hEq | hs2
      · subst hEq
        exact strStartsWith_append _ _ _
          (strStartsWith_append _ _ _ (strStartsWith_append _ _ _ (by decide)))
      · rcases List.mem_append.mp hs2 with hMem | hMem
        · exact expSubObs_prints_saved h css _ (k + 1) hashO (h2WithSibsIn sec) 0 s hMem
        · exact ih (k + 1) s hMem

theorem expSecObs_copies (h o css : String) (hashO : Nat → Nat → Int) (secs : List Node) :
    ∀ k, (expSecObs h o css hashO k secs).2.2.1
      = (enumFrom (k + 1) secs).flatMap (fun q =>
          joinPath (sectionFolderOf o q.1 q.2) (basename css)
            :: (h2WithSibsIn q.2).map (fun _ =>
                 joinPath (joinPath (sectionFolderOf o q.1 q.2) "subsections") (basename css))) := by
  induction secs with
  | nil => intro k; rfl
  | cons sec rest ih =>
      intro k
      simp [expSecObs, expSubObs, enumFrom, ih (k + 1)]

theorem split_html_writes (doc : List Node) (o css : String) (fs0 : FS)
    (hashO : Nat → Nat → Int) (hd : Node) (hh : headOf doc = some hd) :
    (split_html doc o css fs0 hashO).map (fun r => writesOf r.1)
      = .ok (expSecObs (prettify hd) o css hashO 0 (sectionsOf doc)).1 := by
  have h := split_html_obs doc o css fs0 hashO hd hh
  cases hrec : split_html doc o css fs0 hashO with
  | error e => rw [hrec] at h; simp [Except.map] at h
  | ok r =>
      rw [hrec] at h
      replace h := congrArg (fun t => match t with | .ok v => some v.1 | .error _ => none)
        (h : Except.map (fun r => obsOf r.1) (Except.ok r) = _)
      simp only [Except.map, obsOf] at h
      replace h := Option.some.inj h
      simp [Except.map, h]

theorem split_html_prints (doc : List Node) (o css : String) (fs0 : FS)
    (hashO : Nat → Nat → Int) (hd : Node) (hh : headOf doc = some hd) :
    (split_html doc o css fs0 hashO).map (fun r => printsOf r.1)
      = .ok ((expSecObs (prettify hd) o css hashO 0 (sectionsOf doc)).2.1
               ++ ["HTML splitting complete!"]) := by
  have h := split_html_obs doc o css fs0 hashO hd hh
  cases hrec : split_html doc o css fs0 hashO with
  | error e => rw [hrec] at h; simp [Except.map] at h
  | ok r =>
      rw [hrec] at h
      replace h := congrArg (fun t => match t with | .ok v => some v.2.1 | .error _ => none)
        (h : Except.map (fun r => obsOf r.1) (Except.ok r) = _)
      simp only [Except.map, obsOf] at h
      replace h := Option.some.inj h
      simp [Except.map, h]

theorem split_html_copies (doc : List Node) (o css : String) (fs0 : FS)
    (hashO : Nat → Nat → Int) (hd : Node) (hh : headOf doc = some hd) :
    (split_html doc o css fs0 hashO).map (fun r => copyDsts r.1)
      = .ok (expSecObs (prettify hd) o css hashO 0 (sectionsOf doc)).2.2.1 := by
  have h := split_html_obs doc o css fs0 hashO hd hh
  cases hrec : split_html doc o css fs0 hashO with
  | error e => rw [hrec] at h; simp [Except.map] at h
  | ok r =>
      rw [hrec] at h
      replace h := congrArg (fun t => match t with | .ok v => some v.2.2.1 | .error _ => none)
        (h : Except.map (fun r => obsOf r.1) (Except.ok r) = _)
      simp only [Except.map, obsOf] at h
      replace h := Option.some.inj h
      simp [Except.map, h]

/-- C3 (counterexample): not every emitted file has an opening `html` root
element: in a concrete run the section file contains `<html` but the
subsection file does not (its template, lines 137–138, has no opening
`<html>` tag). -/
theorem C3_counterexample_subsection_lacks_html_root :
    (split_html c3Doc "out" "css" [] (fun _ _ => 0)).map
        (fun r => (writesOf r.1).map (fun w => containsSub w.2 "<html"))
      = .ok [true, false] := rfl

/-- C3 (amended): on a document with a head block, the emitted files are
exactly: for each section, one file whose content is
`sectionFileContent` (doctype, opening and closing `html` root, the shared
head, and a body holding exactly that section's serialization), followed
by, for each of its qualifying `h2` headings, one file whose content is
`subsectionFileContent` (doctype, shared head, body holding exactly the
captured fragment, and a closing `</html>` — but no opening `<html>`
tag). -/
theorem C3_amended_emitted_file_shapes (doc : List Node) (o css : String) (fs0 : FS)
    (hashO : Nat → Nat → Int) (hd : Node) (hh : headOf doc = some hd) :
    (split_html doc o css fs0 hashO).map (fun r => writesOf r.1)
      = .ok (expSecObs (prettify hd) o css hashO 0 (sectionsOf doc)).1 :=
  split_html_writes doc o css fs0 hashO hd hh

/-- C3 witness: the amended theorem applied to the concrete document
`c3Doc`, whose head is `exHead`. -/
theorem C3_witness :
    headOf c3Doc = some exHead ∧
    (split_html c3Doc "out" "css" [] (fun _ _ => 0)).map (fun r => writesOf r.1)
      = .ok (expSecObs (prettify exHead) "out" "css" (fun _ _ => 0) 0 (sectionsOf c3Doc)).1 :=
  ⟨rfl, C3_amended_emitted_file_shapes c3Doc "out" "css" [] (fun _ _ => 0) exHead rfl⟩

/-- C4 (counterexample): with the stylesheet basename `main.css` present
under the asset root `mycss`, the emitted file still carries the original
reference `assets/deep/main.css` (not a rewritten one), that reference
does not resolve to an existing file from the emitted file's directory,
and the missing image basename `gone.png` produces no diagnostic. -/
theorem C4_counterexample_no_rewrite_no_diagnostic :
    (split_html c4Doc "out" "mycss" c4Fs (fun _ _ => 0)).map
        (fun r => ((writesOf r.1).map (fun w =>
                     (containsSub w.2 "href=\"assets/deep/main.css\"",
                      containsSub w.2 "src=\"nope/gone.png\"")),
                   pathExists r.2 (resolveRel "out/001_a" "assets/deep/main.css"),
                   (printsOf r.1).any (fun s => containsSub s "gone.png")))
      = .ok ([(true, true)], false, false) := rfl

/-- C4 (amended): `split_html` performs no reference rewriting and reports
no per-reference diagnostics (the `update_css_paths` / `update_img_paths`
calls are commented out): its printed lines are exactly the per-file save
messages plus the completion message, every print is a `Saved `-message or
the completion message, and the emitted file contents are independent of
what exists on the filesystem; the asset directory is instead copied into
each output folder. -/
theorem C4_amended_no_rewriting (doc : List Node) (o css : String) (fs0 fs1 : FS)
    (hashO : Nat → Nat → Int) (hd : Node) (hh : headOf doc = some hd) :
    (split_html doc o css fs0 hashO).map (fun r => printsOf r.1)
      = .ok ((expSecObs (prettify hd) o css hashO 0 (sectionsOf doc)).2.1
               ++ ["HTML splitting complete!"])
    ∧ (split_html doc o css fs0 hashO).map
        (fun r => (printsOf r.1).all
          (fun s => strStartsWith s "Saved " || s == "HTML splitting complete!"))
      = .ok true
    ∧ (split_html doc o css fs0 hashO).map (fun r => writesOf r.1)
      = (split_html doc o css fs1 hashO).map (fun r => writesOf r.1) := by
  refine ⟨split_html_prints doc o css fs0 hashO hd hh, ?_, ?_⟩
  · have hp := split_html_prints doc o css fs0 hashO hd hh
    cases hrec : split_html doc o css fs0 hashO with
    | error e => rw [hrec] at hp; simp [Except.map] at hp
    | ok r =>
        rw [hrec] at hp
        replace hp : printsOf r.1
            = (expSecObs (prettify hd) o css hashO 0 (sectionsOf doc)).2.1
                ++ ["HTML splitting complete!"] := by
          simpa [Except.map] using hp
        simp only [Except.map]
        refine congrArg Except.ok ?_
        rw [hp, List.all_append]
        have h1 : ((expSecObs (prettify hd) o css hashO 0 (sectionsOf doc)).2.1).all
            (fun s => strStartsWith s "Saved " || s == "HTML splitting complete!") = true := by
          rw [List.all_eq_true]
          intro s hs
          rw [expSecObs_prints_saved (prettify hd) o css hashO (sectionsOf doc) 0 s hs]
          rfl
        rw [h1]
        rfl
  · rw [split_html_writes doc o css fs0 hashO hd hh,
        split_html_writes doc o css fs1 hashO hd hh]

/-- C4 witness: the amended theorem applied to the concrete document
`c4Doc` with two different initial filesystems. -/
theorem C4_witness :
    headOf c4Doc = some c4Head ∧
    (split_html c4Doc "out" "mycss" c4Fs (fun _ _ => 0)).map (fun r => writesOf r.1)
      = (split_html c4Doc "out" "mycss" [] (fun _ _ => 0)).map (fun r => writesOf r.1) :=
  ⟨rfl, (C4_amended_no_rewriting c4Doc "out" "mycss" c4Fs [] (fun _ _ => 0) c4Head rfl).2.2⟩

/-- C5: processing a headless document that contains a qualifying `h2`
subsection heading raises an unhandled `NameError`: the subsection write
(line 137) references the local `head_content`, which is only assigned
under `if head:` (line 70–72); no synthesized empty head is substituted on
that path. -/
theorem C5_headless_subsection_raises :
    split_html c5Doc "out" "css" [] (fun _ _ => 0) = .error .nameErrorHeadContent := rfl

/-- C6 (counterexample): the fallback subsection identifier is derived
from the per-process object hash (line 107), so two process instances
(modelled as two hash oracles) produce different output file names for a
document whose qualifying `h2` has no id — the runs are not
byte-identical. -/
theorem C6_counterexample_fallback_hash_dependent :
    writesOfRun (split_html c6Doc "out" "css" [] (fun _ _ => 0))
      ≠ writesOfRun (split_html c6Doc "out" "css" [] (fun _ _ => 1)) := by
  decide

theorem subIdOf_hash_indep (hA hB : Nat → Nat → Int) (n k : Nat) (h2 : Node)
    (hid : hasRealId h2 = true) : subIdOf hA n k h2 = subIdOf hB n k h2 := by
  unfold hasRealId at hid
  unfold subIdOf
  cases hv : h2.getAttr "id" with
  | none => rw [hv] at hid; simp at hid
  | some v =>
      rw [hv] at hid
      simp only [Bool.not_eq_true'] at hid
      simp [hid]

theorem processSubsection_hash_indep (hc : Option String) (css sf : String) (n : Nat)
    (hA hB : Nat → Nat → Int) (k : Nat) (h2 : Node) (sibs : List Node) (fs : FS)
    (hid : hasRealId h2 = true) :
    processSubsection hc css sf n hA k h2 sibs fs
      = processSubsection hc css sf n hB k h2 sibs fs := by
  unfold processSubsection subFileOf
  rw [subIdOf_hash_indep hA hB n k h2 hid]

theorem runSubsections_hash_indep (hc : Option String) (css sf : String) (n : Nat)
    (hA hB : Nat → Nat → Int) (pairs : List (Node × List Node))
    (hall : ∀ q ∈ pairs, hasRealId q.1 = true) :
    ∀ (k : Nat) (fs : FS),
    runSubsections hc css sf n hA k pairs fs = runSubsections hc css sf n hB k pairs fs := by
  induction pairs with
  | nil => intro k fs; rfl
  | cons q rest ih =>
      intro k fs
      obtain ⟨h2, sibs⟩ := q
      have h1 := processSubsection_hash_indep hc css sf n hA hB (k + 1) h2 sibs fs
        (hall _ (List.mem_cons_self _ _))
      have hstep : ∀ (hX : Nat → Nat → Int),
          runSubsections hc css sf n hX k ((h2, sibs) :: rest) fs
            = (processSubsection hc css sf n hX (k + 1) h2 sibs fs).bind
                (fun r1 => (runSubsections hc css sf n hX (k + 1) rest r1.2).bind
                  (fun r2 => .ok (r1.1 ++ r2.1, r2.2))) := fun _ => rfl
      rw [hstep hA, hstep hB, h1]
      cases hps : processSubsection hc css sf n hB (k + 1) h2 sibs fs with
      | error e => rfl
      | ok r1 =>
          simp only [Except.bind]
          rw [ih (fun q hq => hall q (List.mem_cons_of_mem _ hq)) (k + 1) r1.2]

theorem processSection_hash_indep (hc : Option String) (o css : String)
    (hA hB : Nat → Nat → Int) (n : Nat) (sec : Node) (fs : FS)
    (hall : ∀ q ∈ h2WithSibsIn sec, hasRealId q.1 = true) :
    processSection hc o css hA n sec fs = processSection hc o css hB n sec fs := by
  have hstep : ∀ (hX : Nat → Nat → Int),
      processSection hc o css hX n sec fs
        = (runSubsections hc css (sectionFolderOf o n sec) n hX 0 (h2WithSibsIn sec)
             (copy_css_folder (mkdirsFS fs (sectionFolderOf o n sec)) css
               (sectionFolderOf o n sec)).2).bind
            (fun r => .ok ((Event.mkdirs (sectionFolderOf o n sec)
                 :: (copy_css_folder (mkdirsFS fs (sectionFolderOf o n sec)) css
                      (sectionFolderOf o n sec)).1
                 ++ [.write (sectionFileOf o n sec) (sectionFileContent hc sec),
                     .print ("Saved section " ++ sectionIdOf sec ++ " to "
                               ++ sectionFileOf o n sec)]) ++ r.1, r.2)) := fun _ => rfl
  rw [hstep hA, hstep hB,
    runSubsections_hash_indep hc css (sectionFolderOf o n sec) n hA hB
      (h2WithSibsIn sec) hall 0]

theorem runSections_hash_indep (hc : Option String) (o css : String)
    (hA hB : Nat → Nat → Int) (secs : List Node)
    (hall : ∀ sec ∈ secs, ∀ q ∈ h2WithSibsIn sec, hasRealId q.1 = true) :
    ∀ (k : Nat) (fs : FS),
    runSections hc o css hA k secs fs = runSections hc o css hB k secs fs := by
  induction secs with
  | nil => intro k fs; rfl
  | cons sec rest ih =>
      intro k fs
      have h1 := processSection_hash_indep hc o css hA hB (k + 1) sec fs
        (hall _ (List.mem_cons_self _ _))
      have hstep : ∀ (hX : Nat → Nat → Int),
          runSections hc o css hX k (sec :: rest) fs
            = (processSection hc o css hX (k + 1) sec fs).bind
                (fun r1 => (runSections hc o css hX (k + 1) rest r1.2).bind
                  (fun r2 => .ok (r1.1 ++ r2.1, r2.2))) := fun _ => rfl
      rw [hstep hA, hstep hB, h1]
      cases hps : processSection hc o css hB (k + 1) sec fs with
      | error e => rfl
      | ok r1 =>
          simp only [Except.bind]
          rw [ih (fun sec2 hs => hall sec2 (List.mem_cons_of_mem _ hs)) (k + 1) r1.2]

/-- C6 (amended): when every qualifying `h2` heading of every section
carries a non-empty id attribute, the run never consults the object hash,
so any two process instances (hash oracles) produce identical event traces
and final filesystems — output is byte-identical across runs; only an
id-less heading gets a hash-derived, process-dependent name. -/
theorem C6_amended_deterministic_with_ids (doc : List Node) (o css : String) (fs0 : FS)
    (hA hB : Nat → Nat → Int)
    (hids : (sectionsOf doc).all
      (fun sec => (h2WithSibsIn sec).all (fun q => hasRealId q.1)) = true) :
    split_html doc o css fs0 hA = split_html doc o css fs0 hB := by
  have hall : ∀ sec ∈ sectionsOf doc, ∀ q ∈ h2WithSibsIn sec, hasRealId q.1 = true := by
    intro sec hsec q hq
    have h1 := (List.all_eq_true.mp hids) sec hsec
    exact (List.all_eq_true.mp h1) q hq
  have hstep0 : split_html doc o css fs0 hA
      = (runSections ((headOf doc).map prettify) o css hA 0 (sectionsOf doc) fs0).bind
          (fun r => .ok (r.1 ++ [.print "HTML splitting complete!"], r.2)) := rfl
  have hstep1 : split_html doc o css fs0 hB
      = (runSections ((headOf doc).map prettify) o css hB 0 (sectionsOf doc) fs0).bind
          (fun r => .ok (r.1 ++ [.print "HTML splitting complete!"], r.2)) := rfl
  rw [hstep0, hstep1,
    runSections_hash_indep ((headOf doc).map prettify) o css hA hB (sectionsOf doc) hall 0 fs0]

/-- C6 witness: the amended theorem applied to `c3Doc`, whose only
qualifying heading carries the id `h1`. -/
theorem C6_witness :
    ((sectionsOf c3Doc).all
      (fun sec => (h2WithSibsIn sec).all (fun q => hasRealId q.1)) = true)
    ∧ split_html c3Doc "out" "css" [] (fun _ _ => 0)
        = split_html c3Doc "out" "css" [] (fun _ _ => 5) :=
  ⟨by decide,
   C6_amended_deterministic_with_ids c3Doc "out" "css" [] (fun _ _ => 0) (fun _ _ => 5)
     (by decide)⟩

/-- C8 (counterexample): an invocation with two operands (three `argv`
entries including the program name) is not accepted: it prints the usage
message and exits with code 1, although the claim says two-argument
invocations are valid. -/
theorem C8_counterexample_two_args_rejected :
    program "Python 3" ["HtmlChopper.py", "in.html", "out"] (fun _ => []) [] (fun _ _ => 0)
      = ([.print "Python 3", .print usageMsg], .exited 1) := rfl

/-- C8 (amended): the command surface requires exactly three operands
(`<input_html_file> <output_directory> <css_folder>`; `len(sys.argv) != 4`
is rejected): every invocation with any other argument count — including
the two-operand form — prints the usage message to standard output and
exits with code 1, and a three-operand invocation is never rejected that
way. -/
theorem C8_amended_exactly_three_operands :
    (∀ (pv : String) (argv : List String) (parseFile : String → List Node) (fs0 : FS)
       (hashO : Nat → Nat → Int), argv.length ≠ 4 →
       program pv argv parseFile fs0 hashO = ([.print pv, .print usageMsg], .exited 1))
    ∧ (∀ (pv a b c d : String) (parseFile : String → List Node) (fs0 : FS)
         (hashO : Nat → Nat → Int),
         (program pv [a, b, c, d] parseFile fs0 hashO).2 ≠ .exited 1) := by
  constructor
  · intro pv argv parseFile fs0 hashO hlen
    match argv with
    | [] => rfl
    | [_] => rfl
    | [_, _] => rfl
    | [_, _, _] => rfl
    | [_, _, _, _] => exact absurd rfl hlen
    | _ :: _ :: _ :: _ :: _ :: _ => rfl
  · intro pv a b c d parseFile fs0 hashO
    cases hs : split_html (parseFile b) c d fs0 hashO with
    | ok r => simp [program, hs]
    | error e => simp [program, hs]

/-- C8 witness: the amended theorem applied to an empty argument vector
and to a concrete three-operand invocation. -/
theorem C8_witness :
    (([] : List String).length ≠ 4)
    ∧ program "pv" [] (fun _ => []) [] (fun _ _ => 0)
        = ([.print "pv", .print usageMsg], .exited 1)
    ∧ (program "pv" ["p", "i", "o", "c"] (fun _ => []) [] (fun _ _ => 0)).2 ≠ .exited 1 :=
  ⟨by decide,
   C8_amended_exactly_three_operands.1 "pv" [] (fun _ => []) [] (fun _ _ => 0) (by decide),
   C8_amended_exactly_three_operands.2 "pv" "p" "i" "o" "c" (fun _ => []) [] (fun _ _ => 0)⟩

/-- C9 (counterexample): on a document with no `section-*` element the run
prints only the generic completion message; no `NoSectionsFound`
diagnostic is logged anywhere. -/
theorem C9_counterexample_no_diagnostic_logged :
    (split_html c9Doc "out" "css" [] (fun _ _ => 0)).map (fun r => printsOf r.1)
      = .ok ["HTML splitting complete!"]
    ∧ (split_html c9Doc "out" "css" [] (fun _ _ => 0)).map
        (fun r => (printsOf r.1).any (fun s => containsSub s "NoSectionsFound"))
      = .ok false := ⟨rfl, rfl⟩

/-- C9 (amended): when no element matches `section-*` the run creates no
directories, writes no files, copies nothing, prints only the completion
message (no `NoSectionsFound` diagnostic exists in the program) and the
process exits with code 0. -/
theorem C9_amended_silent_empty_run (pv nm inp outd cssd : String)
    (parseFile : String → List Node) (fs0 : FS) (hashO : Nat → Nat → Int)
    (hsec : sectionsOf (parseFile inp) = []) :
    program pv [nm, inp, outd, cssd] parseFile fs0 hashO
      = ([.print pv, .print "HTML splitting complete!"], .exited 0) := by
  have hrun : split_html (parseFile inp) outd cssd fs0 hashO
      = .ok ([.print "HTML splitting complete!"], fs0) := by
    have hstep : split_html (parseFile inp) outd cssd fs0 hashO
        = (runSections ((headOf (parseFile inp)).map prettify) outd cssd hashO 0
            (sectionsOf (parseFile inp)) fs0).bind
            (fun r => .ok (r.1 ++ [.print "HTML splitting complete!"], r.2)) := rfl
    rw [hstep, hsec]
    rfl
  simp [program, hrun]

/-- C9 witness: the amended theorem applied to the concrete sectionless
document `c9Doc`. -/
theorem C9_witness :
    sectionsOf c9Doc = []
    ∧ program "pv" ["p", "in.html", "out", "css"] (fun _ => c9Doc) [] (fun _ _ => 0)
        = ([.print "pv", .print "HTML splitting complete!"], .exited 0) :=
  ⟨rfl,
   C9_amended_silent_empty_run "pv" "p" "in.html" "out" "css" (fun _ => c9Doc) []
     (fun _ _ => 0) rfl⟩

theorem isUnder_self_false (t : String) : isUnder t t = false := by
  unfold isUnder
  cases h : (t ++ "/").data.isPrefixOf t.data with
  | false => rfl
  | true =>
      exfalso
      have hpre := List.isPrefixOf_iff_prefix.mp h
      have hlen := hpre.length_le
      rw [String.data_append] at hlen
      simp at hlen

/-- C10: the asset (CSS) directory is copied once into each section's
folder and once more into its `subsections` folder per subsection (first
conjunct: the run's `copytree` destinations are exactly that sequence, in
order); and each copy first removes an existing directory of the same name
at the target (second conjunct: the events of a copy onto an existing
target start with its `rmtree`; third conjunct: any path below the target
after the copy is a mirrored asset-root path — everything previously
present under the target is gone). -/
theorem C10_css_copy_per_boundary :
    (∀ (doc : List Node) (o css : String) (fs0 : FS) (hashO : Nat → Nat → Int) (hd : Node),
      headOf doc = some hd →
      (split_html doc o css fs0 hashO).map (fun r => copyDsts r.1)
        = .ok ((enumFrom 1 (sectionsOf doc)).flatMap (fun q =>
            joinPath (sectionFolderOf o q.1 q.2) (basename css)
              :: (h2WithSibsIn q.2).map (fun _ =>
                   joinPath (joinPath (sectionFolderOf o q.1 q.2) "subsections")
                     (basename css)))))
    ∧ (∀ (fs : FS) (css tdir : String),
        pathExists fs (joinPath tdir (basename css)) = true →
        (copy_css_folder fs css tdir).1
          = [.rmtree (joinPath tdir (basename css)),
             .copytree css (joinPath tdir (basename css))])
    ∧ (∀ (fs : FS) (css tdir p : String),
        pathExists fs (joinPath tdir (basename css)) = true →
        isUnder (joinPath tdir (basename css)) p = true →
        p ∈ (copy_css_folder fs css tdir).2 →
        ∃ q ∈ rmtreeFS fs (joinPath tdir (basename css)),
          isUnder css q = true
          ∧ p = joinPath tdir (basename css) ++ strDrop q css.length) := by
  refine ⟨?_, ?_, ?_⟩
  · intro doc o css fs0 hashO hd hh
    rw [split_html_copies doc o css fs0 hashO hd hh,
      expSecObs_copies (prettify hd) o css hashO (sectionsOf doc) 0]
  · intro fs css tdir hp
    simp [copy_css_folder, hp]
  · intro fs css tdir p hp hup hmem
    have h2 : (copy_css_folder fs css tdir).2
        = copytreeFS (rmtreeFS fs (joinPath tdir (basename css))) css
            (joinPath tdir (basename css)) := by
      simp [copy_css_folder, hp]
    rw [h2] at hmem
    unfold copytreeFS at hmem
    rcases List.mem_cons.mp hmem with hpt | hmem1
    · exfalso
      rw [hpt] at hup
      rw [isUnder_self_false] at hup
      exact Bool.false_ne_true hup
    rcases List.mem_append.mp hmem1 with hmemF | hmem2
    · obtain ⟨q, hq, hfq⟩ := List.mem_filterMap.mp hmemF
      by_cases hu : isUnder css q = true
      · rw [if_pos hu] at hfq
        exact ⟨q, hq, hu, (Option.some.inj hfq).symm⟩
      · rw [if_neg hu] at hfq
        exact absurd hfq (Option.noConfusion)
    · exfalso
      have hfil := (List.mem_filter.mp hmem2).2
      rw [hup] at hfil
      simp at hfil

/-- C10 witness: the theorem applied to the concrete document `c10Doc`
(one section, one subsection), to a filesystem where the copy target
already exists, and to a stale path below an existing target. -/
theorem C10_witness :
    headOf c10Doc = some exHead
    ∧ (split_html c10Doc "out" "mycss" [] (fun _ _ => 0)).map (fun r => copyDsts r.1)
        = .ok ((enumFrom 1 (sectionsOf c10Doc)).flatMap (fun q =>
            joinPath (sectionFolderOf "out" q.1 q.2) (basename "mycss")
              :: (h2WithSibsIn q.2).map (fun _ =>
                   joinPath (joinPath (sectionFolderOf "out" q.1 q.2) "subsections")
                     (basename "mycss"))))
    ∧ (copy_css_folder ["d/mycss"] "mycss" "d").1
        = [.rmtree "d/mycss", .copytree "mycss" "d/mycss"]
    ∧ ∃ q ∈ rmtreeFS ["d/mycss", "d/mycss/stale", "mycss", "mycss/a.css"] "d/mycss",
        isUnder "mycss" q = true ∧ "d/mycss/a.css" = "d/mycss" ++ strDrop q "mycss".length :=
  ⟨rfl,
   C10_css_copy_per_boundary.1 c10Doc "out" "mycss" [] (fun _ _ => 0) exHead rfl,
   C10_css_copy_per_boundary.2.1 ["d/mycss"] "mycss" "d" (by decide),
   C10_css_copy_per_boundary.2.2 ["d/mycss", "d/mycss/stale", "mycss", "mycss/a.css"]
     "mycss" "d" "d/mycss/a.css" (by decide) (by decide) (by decide)⟩

end HtmlChopper
